import Mathlib

/-!
# terraform-provider-split: the users client and the `split_user` data source

A shallow embedding of `api/users.go` (`UserListOpts`, `UsersService.List`,
`UsersService.FindByEmail`) and of `split/data_source_split_user.go`
(`dataSourceSplitUserRead`).

Conventions of the embedding:

* a Go pointer field (`*string`, `*bool`, `*User`) is an `Option`; `nil` is `none`;
* a Go `error` is `Option GoError`; `nil` is `none`;
* a Go slice is a `List`; the nil slice and the empty slice are both `[]`;
* Go `int` is `Int`;
* a call that may dereference a nil pointer, or sit in the `for` loop for ever, returns a
  `Run`: `returned v`, `panicked`, or `outOfFuel` when the iteration budget is spent;
* the remote service is the `get` field of the client: a function of the request URL.
-/

namespace Split

/-! ## Data model (`api/users.go`) -/

/-- Go `error` values, identified by their message. -/
structure GoError where
  msg : String
  deriving DecidableEq, Repr

/-- The transport's `*simpleresty.Response`, reduced to the fields the client passes around. -/
structure Response where
  StatusCode : Int
  Body : String
  deriving DecidableEq, Repr

/-- A group membership, `{id, type}`. -/
structure Group where
  ID : Option String
  Type_ : Option String
  deriving DecidableEq, Repr

/-- The `User` struct: every scalar field is a pointer, `Groups` is a slice of pointers. -/
structure User where
  ID : Option String
  Type_ : Option String
  Name : Option String
  Email : Option String
  Status : Option String
  TFA : Option Bool
  Groups : List (Option Group)
  deriving DecidableEq, Repr

/-- The Go zero value of `User`, what `var user User` holds. -/
def User.zero : User :=
  { ID := none, Type_ := none, Name := none, Email := none, Status := none, TFA := none,
    Groups := [] }

/-- The `UserListResult` struct: one page of the list envelope. -/
structure UserListResult where
  Data : List (Option User)
  NextMarker : Option String
  PreviousMarker : Option String
  Limit : Option Int
  Count : Option Int
  deriving DecidableEq, Repr

/-- The Go zero value of `UserListResult`, what `var result UserListResult` holds. -/
def UserListResult.zero : UserListResult :=
  { Data := [], NextMarker := none, PreviousMarker := none, Limit := none, Count := none }

/-- The `UserListOpts` struct: the query parameters of `GET /users`. -/
structure UserListOpts where
  Status : String
  Limit : Int
  Before : Int
  After : String
  GroupID : String
  deriving DecidableEq, Repr

/-- The Go zero value of `UserListOpts`. -/
def UserListOpts.zero : UserListOpts :=
  { Status := "", Limit := 0, Before := 0, After := "", GroupID := "" }

/-! ## Outcome of a call -/

/-- How a call ends: it returns a value, it panics on a nil dereference or a failed type
assertion, or the iteration budget of the model ran out before it ended. -/
inductive Run (α : Type) where
  | returned (a : α) : Run α
  | panicked : Run α
  | outOfFuel : Run α
  deriving DecidableEq, Repr

/-! ## Query-string encoding of `UserListOpts`

`RequestURLWithQueryParams` hands the options struct to the `url:"..."` struct-tag encoder:
fields are visited in declaration order, a field tagged `omitempty` is skipped when it holds
its zero value, and every other field adds its value under the name its tag gives. The
resulting multimap is then written out with sorted keys, the values of one key in the order
they were added. -/

/-- Decimal rendering of a Go `int`, as `strconv.FormatInt(n, 10)`. -/
def FormatInt (n : Int) : String :=
  match n with
  | Int.ofNat m => Nat.repr m
  | Int.negSucc m => "-" ++ Nat.repr (m + 1)

/-- One struct field as the tag encoder sees it: the name and the `omitempty` flag from the
`url` tag, whether the field holds its zero value, and the value rendered as text. -/
structure TaggedField where
  name : String
  omitempty : Bool
  isZero : Bool
  value : String
  deriving DecidableEq, Repr

/-- The fields of `UserListOpts` with the `url` tags the source declares, in declaration order:
`Status` is tagged `status,omitempty`; `Limit`, `Before`, `After` and `GroupID` are all tagged
`limit,omitempty`. -/
def UserListOpts.fields (o : UserListOpts) : List TaggedField :=
  [ { name := "status", omitempty := true, isZero := o.Status == "", value := o.Status },
    { name := "limit", omitempty := true, isZero := o.Limit == 0, value := FormatInt o.Limit },
    { name := "limit", omitempty := true, isZero := o.Before == 0, value := FormatInt o.Before },
    { name := "limit", omitempty := true, isZero := o.After == "", value := o.After },
    { name := "limit", omitempty := true, isZero := o.GroupID == "", value := o.GroupID } ]

/-- The tag encoder: each field that is not an omitted zero adds `(name, value)`. -/
def encodeFields : List TaggedField → List (String × String)
  | [] => []
  | f :: rest =>
    if f.omitempty && f.isZero then encodeFields rest
    else (f.name, f.value) :: encodeFields rest

/-- The query parameters `UsersService.List` sends for the given options, in the order the
encoder adds them. -/
def UserListOpts.Values (o : UserListOpts) : List (String × String) :=
  encodeFields o.fields

/-- Upper-case hexadecimal digit. -/
def hexDigit (n : Nat) : Char :=
  if n < 10 then Char.ofNat (48 + n) else Char.ofNat (55 + n)

/-- A byte as `%XX`. -/
def percentByte (b : Nat) : List Char :=
  ['%', hexDigit (b / 16), hexDigit (b % 16)]

/-- The UTF-8 bytes of a character. -/
def utf8Bytes (c : Char) : List Nat :=
  let n := c.toNat
  if n < 128 then [n]
  else if n < 2048 then [192 + n / 64, 128 + n % 64]
  else if n < 65536 then [224 + n / 4096, 128 + n / 64 % 64, 128 + n % 64]
  else [240 + n / 262144, 128 + n / 4096 % 64, 128 + n / 64 % 64, 128 + n % 64]

/-- Query escaping of one character: unreserved characters stay, a space becomes `+`, every
other character is written as the `%XX` of its UTF-8 bytes. -/
def escapeChar (c : Char) : List Char :=
  if c.isAlphanum || c == '-' || c == '_' || c == '.' || c == '~' then [c]
  else if c == ' ' then ['+']
  else (utf8Bytes c).flatMap percentByte

/-- Query escaping of a string, as `url.QueryEscape`. -/
def QueryEscape (s : String) : String :=
  String.mk (s.data.flatMap escapeChar)

/-- Lexicographic order on code-point sequences. -/
def codesLt : List Nat → List Nat → Bool
  | _, [] => false
  | [], _ :: _ => true
  | a :: as, b :: bs => if a < b then true else if b < a then false else codesLt as bs

/-- The order in which keys are written out: lexicographic on the characters. -/
def keyLt (a b : String) : Bool :=
  codesLt (a.data.map Char.toNat) (b.data.map Char.toNat)

/-- Insertion of a key into a sorted list of distinct keys. -/
def insertKey (k : String) : List String → List String
  | [] => [k]
  | x :: xs => if keyLt k x then k :: x :: xs else if k = x then x :: xs else x :: insertKey k xs

/-- The distinct keys of a multimap, sorted. -/
def sortedKeys : List (String × String) → List String
  | [] => []
  | (k, _) :: rest => insertKey k (sortedKeys rest)

/-- The `key=value` items of a multimap, keys sorted, the values of a key in insertion order. -/
def encodeItems (vs : List (String × String)) : List String :=
  (sortedKeys vs).flatMap fun k =>
    (vs.filter fun kv => kv.1 == k).map fun kv => QueryEscape kv.1 ++ "=" ++ QueryEscape kv.2

/-- The query string of a multimap, as `url.Values.Encode`. -/
def Encode (vs : List (String × String)) : String :=
  "&".intercalate (encodeItems vs)

/-- The request URL for a path and an options struct, as `RequestURLWithQueryParams`, for a
client whose base URL is not empty and is written the way the URL serialiser writes it: the
base URL and the path are parsed, and on a parse error the empty string and the error are
returned; otherwise the result is the base URL, the path and, when there is one, `?` and the
encoded query. `parseErr` is what parsing reports for the base URL, nil when it parses; the
tag encoder itself cannot fail on a struct. -/
def RequestURLWithQueryParams (baseURL : String) (parseErr : Option GoError) (path : String)
    (opts : UserListOpts) : String × Option GoError :=
  match parseErr with
  | some e => ("", some e)
  | none =>
    let q := Encode opts.Values
    (if q = "" then baseURL ++ path else baseURL ++ path ++ "?" ++ q, none)

/-! ## `UsersService` -/

/-- The users service: the client it wraps, reduced to the base URL, what parsing the base URL
reports (nil when it parses), and the transport's `get`, which for a request URL yields the
decoded body, the response and the error. -/
structure UsersService where
  baseURL : String
  parseErr : Option GoError
  get : String → UserListResult × Option Response × Option GoError

/-- What `List` returns: `(*UserListResult, *simpleresty.Response, error)`. -/
structure ListReturn where
  result : Option UserListResult
  response : Option Response
  err : Option GoError
  deriving DecidableEq, Repr

/-- `UsersService.List`: build the URL; on a URL error return nil, nil and the error;
otherwise issue the GET and return the address of the local result, the response and the
GET's error. -/
def UsersService.List (u : UsersService) (opts : UserListOpts) : ListReturn :=
  match RequestURLWithQueryParams u.baseURL u.parseErr "/users" opts with
  | (_, some urlStrErr) => { result := none, response := none, err := some urlStrErr }
  | (urlStr, none) =>
    match u.get urlStr with
    | (result, response, getErr) => { result := some result, response := response, err := getErr }

/-- Result of the inner `for _, uu := range userList.Data` loop of `FindByEmail`. -/
inductive Scan where
  | found (uu : User) : Scan
  | exhausted : Scan
  | nilEntry : Scan
  deriving DecidableEq, Repr

/-- The inner loop of `FindByEmail`: entries are visited in order; reading `uu.Email` of a
nil entry is a nil dereference; the first entry whose `Email` is non-nil and equal to `email`
ends the loop. -/
def scanData (email : String) : List (Option User) → Scan
  | [] => Scan.exhausted
  | none :: _ => Scan.nilEntry
  | some uu :: rest =>
    match uu.Email with
    | some e => if e = email then Scan.found uu else scanData email rest
    | none => scanData email rest

/-- What `FindByEmail` returns: `(*User, *simpleresty.Response, error)`; the user pointer is
the address of a local and never nil. -/
structure FindReturn where
  user : User
  response : Option Response
  err : Option GoError
  deriving DecidableEq, Repr

/-- A run of `FindByEmail`: the `List` requests issued, in order, and how the call ended. -/
structure FindRun where
  requests : List UserListOpts
  outcome : Run FindReturn
  deriving DecidableEq, Repr

/-- The outer `for { ... }` loop of `FindByEmail`, one iteration per unit of fuel, started
with the current `opts`. The local `user` is still the zero value whenever an iteration
starts, and `response` is overwritten by every `List` call. -/
def UsersService.findLoop (u : UsersService) (email : String) :
    Nat → UserListOpts → FindRun
  | 0, _ => { requests := [], outcome := Run.outOfFuel }
  | fuel + 1, opts =>
    let r := u.List opts
    match r.err with
    | some err =>
      { requests := [opts],
        outcome := Run.returned { user := User.zero, response := r.response, err := some err } }
    | none =>
      match r.result with
      | none => { requests := [opts], outcome := Run.panicked }
      | some userList =>
        match scanData email userList.Data with
        | Scan.found uu =>
          { requests := [opts],
            outcome := Run.returned { user := uu, response := r.response, err := none } }
        | Scan.nilEntry => { requests := [opts], outcome := Run.panicked }
        | Scan.exhausted =>
          match userList.NextMarker with
          | none =>
            { requests := [opts],
              outcome := Run.returned { user := User.zero, response := r.response, err := none } }
          | some marker =>
            let rest := u.findLoop email fuel { opts with After := marker }
            { requests := opts :: rest.requests, outcome := rest.outcome }

/-- `UsersService.FindByEmail`: the loop started with `opts := &UserListOpts{Limit: 100}`. -/
def UsersService.FindByEmail (u : UsersService) (email : String) (fuel : Nat) : FindRun :=
  u.findLoop email fuel { UserListOpts.zero with Limit := 100 }

/-! ## Accessors of `User` -/

/-- Modelled from the spec: the accessor `GetID` of `User` is not among the sources; the spec
describes the accessors as nil-dereference-safe optional-unwrap-with-default helpers, so an
absent `ID` reads as the empty string. -/
def User.GetID (u : User) : String := u.ID.getD ""

/-- Modelled from the spec: the accessor `GetName` of `User` is not among the sources; an
absent `Name` reads as the empty string. -/
def User.GetName (u : User) : String := u.Name.getD ""

/-- Modelled from the spec: the accessor `GetEmail` of `User` is not among the sources; an
absent `Email` reads as the empty string. -/
def User.GetEmail (u : User) : String := u.Email.getD ""

/-- Modelled from the spec: the accessor `GetTFA` of `User` is not among the sources; an
absent `TFA` reads as `false`. -/
def User.GetTFA (u : User) : Bool := u.TFA.getD false

/-- Modelled from the spec: the accessor `GetStatus` of `User` is not among the sources; an
absent `Status` reads as the empty string. -/
def User.GetStatus (u : User) : String := u.Status.getD ""

/-! ## The `split_user` data source (`split/data_source_split_user.go`) -/

/-- A value held by a schema attribute: `schema.TypeString` or `schema.TypeBool`. -/
inductive Value where
  | str (s : String) : Value
  | bool (b : Bool) : Value
  deriving DecidableEq, Repr

/-- The `schema.ResourceData` of the data source: the resource id and one slot per attribute
of the schema `dataSourceSplitUser` declares (`email`, `name`, `2fa`, `status`). -/
structure ResourceData where
  id : String
  email : String
  name : String
  tfa : Bool
  status : String
  deriving DecidableEq, Repr

/-- `d.Get(key)`: the value of an attribute of the schema, nothing for a key outside it. -/
def ResourceData.Get (d : ResourceData) (key : String) : Option Value :=
  if key = "email" then some (Value.str d.email)
  else if key = "name" then some (Value.str d.name)
  else if key = "2fa" then some (Value.bool d.tfa)
  else if key = "status" then some (Value.str d.status)
  else none

/-- `d.Set(key, value)`: overwrite the attribute when the key is in the schema and the value
has the attribute's type; otherwise the data is untouched (the error `Set` reports is dropped
by the caller). -/
def ResourceData.Set (d : ResourceData) (key : String) (v : Value) : ResourceData :=
  match v with
  | Value.str s =>
    if key = "email" then { d with email := s }
    else if key = "name" then { d with name := s }
    else if key = "status" then { d with status := s }
    else d
  | Value.bool b => if key = "2fa" then { d with tfa := b } else d

/-- `d.SetId(id)`. -/
def ResourceData.SetId (d : ResourceData) (id : String) : ResourceData :=
  { d with id := id }

/-- `d.Id()`. -/
def ResourceData.Id (d : ResourceData) : String := d.id

/-- Severity of a diagnostic. -/
inductive Severity where
  | Error : Severity
  | Warning : Severity
  deriving DecidableEq, Repr

/-- One `diag.Diagnostic`. -/
structure Diagnostic where
  Severity : Severity
  Summary : String
  Detail : String
  deriving DecidableEq, Repr

/-- `diag.Diagnostics`; the nil value is the empty list. -/
abbrev Diagnostics := List Diagnostic

/-- `diag.FromErr`: nil for a nil error, otherwise one error diagnostic whose summary is the
error's message. -/
def diag.FromErr (err : Option GoError) : Diagnostics :=
  match err with
  | none => []
  | some e => [{ Severity := Severity.Error, Summary := e.msg, Detail := "" }]

/-- The API client held by the provider configuration. -/
structure Client where
  Users : UsersService

/-- The provider configuration passed to the read function as `m`. -/
structure Config where
  API : Client

/-- `dataSourceSplitUserRead`: read the configured email, look the user up, and on success
write the id and the four attributes. Returns the diagnostics and the resource data as the
call leaves it. -/
def dataSourceSplitUserRead (fuel : Nat) (d : ResourceData) (m : Config) :
    Run (Diagnostics × ResourceData) :=
  let client := m.API
  match d.Get "email" with
  | some (Value.str email) =>
    match (client.Users.FindByEmail email fuel).outcome with
    | Run.returned found =>
      match found.err with
      | some findErr => Run.returned (diag.FromErr (some findErr), d)
      | none =>
        let user := found.user
        let d := d.SetId user.GetID
        let d := d.Set "name" (Value.str user.GetName)
        let d := d.Set "email" (Value.str user.GetEmail)
        let d := d.Set "2fa" (Value.bool user.GetTFA)
        let d := d.Set "status" (Value.str user.GetStatus)
        Run.returned ([], d)
    | Run.panicked => Run.panicked
    | Run.outOfFuel => Run.outOfFuel
  | _ => Run.panicked

/-! ## Chains of pages -/

/-- The request `FindByEmail` opens with: `&UserListOpts{Limit: 100}`. -/
def firstRequest : UserListOpts := { UserListOpts.zero with Limit := 100 }

/-- The remote lists page `p` for the request `opts`: `List` returns it with a nil error. -/
def listed (u : UsersService) (opts : UserListOpts) (p : UserListResult) : Bool :=
  decide ((u.List opts).result = some p) && decide ((u.List opts).err = none)

/-- The pages form a finite forward chain from `opts`: the remote lists the first page for
`opts`, each page with a `NextMarker` is followed by the page the remote lists for that
cursor, and the page without a `NextMarker` is the last one. -/
def forwardChain (u : UsersService) :
    UserListOpts → List UserListResult → Bool
  | _, [] => false
  | opts, p :: rest =>
    listed u opts p &&
      match p.NextMarker with
      | none => rest.isEmpty
      | some marker => forwardChain u { opts with After := marker } rest

/-- Every entry of the page's `Data` is a record, none is a null pointer. -/
def UserListResult.allRecords (p : UserListResult) : Bool :=
  p.Data.all Option.isSome

/-- The records of a sequence of pages in scan order: page after page, each page's `Data`
front to back. -/
def records (pages : List UserListResult) : List User :=
  pages.flatMap fun p => p.Data.filterMap id

/-- The record's email is present and equal to `email`. -/
def User.hasEmail (uu : User) (email : String) : Bool :=
  decide (uu.Email = some email)

/-- The page holds a record whose email is present and equal to `email`. -/
def UserListResult.hasMatch (p : UserListResult) (email : String) : Bool :=
  (p.Data.filterMap id).any fun uu => uu.hasEmail email

/-- The requests `reqs` follow the chain `pages` from `opts`: they open with `opts`, there is
at most one per page, the request in position `i` is one from which the chain from page `i`
on is listed, every page before the last one requested has no match for `email` and its
`NextMarker` is the `After` of the next request, the last page requested has a match or no
`NextMarker`, and the requests differ from `opts` in `After` only. -/
def RequestsFollow (u : UsersService) (email : String) (pages : List UserListResult)
    (opts : UserListOpts) (reqs : List UserListOpts) : Prop :=
  reqs[0]? = some opts ∧
  reqs.length ≤ pages.length ∧
  (∀ i r, reqs[i]? = some r → forwardChain u r (pages.drop i) = true) ∧
  (∀ (i : Nat) p, i + 1 < reqs.length → pages[i]? = some p →
    p.hasMatch email = false ∧
    ∃ marker r, p.NextMarker = some marker ∧ reqs[i]? = some r ∧
      reqs[i + 1]? = some { r with After := marker }) ∧
  (∀ p, pages[reqs.length - 1]? = some p → p.hasMatch email = true ∨ p.NextMarker = none) ∧
  (∀ r ∈ reqs, { r with After := opts.After } = opts)

/-! ## A concrete remote -/

/-- A record with the given id, name, email, status and 2FA flag. -/
def mkUser (id name : String) (email : Option String) (status : String) (tfa : Bool) : User :=
  { ID := some id, Type_ := some "user", Name := some name, Email := email,
    Status := some status, TFA := some tfa, Groups := [] }

/-- First page of the sample remote: a record without email, then two records with the same
email; it points on to the cursor `m1`. -/
def samplePage0 : UserListResult :=
  { Data := [some (mkUser "u0" "anon" none "ACTIVE" true),
             some (mkUser "u1" "bob" (some "bob@example.com") "PENDING" false),
             some (mkUser "u2" "bobby" (some "bob@example.com") "ACTIVE" true)],
    NextMarker := some "m1", PreviousMarker := none, Limit := some 100, Count := some 3 }

/-- Second and last page of the sample remote. -/
def samplePage1 : UserListResult :=
  { Data := [some (mkUser "u3" "carol" (some "carol@example.com") "ACTIVE" false)],
    NextMarker := none, PreviousMarker := some "m0", Limit := some 100, Count := some 1 }

/-- The sample remote: two pages, every other URL is answered with an error. -/
def sampleService : UsersService :=
  { baseURL := "https://api.split.io"
    parseErr := none
    get := fun url =>
      if url = "https://api.split.io/users?limit=100" then
        (samplePage0, some { StatusCode := 200, Body := "page0" }, none)
      else if url = "https://api.split.io/users?limit=100&limit=m1" then
        (samplePage1, some { StatusCode := 200, Body := "page1" }, none)
      else
        (UserListResult.zero, some { StatusCode := 404, Body := "" }, some { msg := "404" }) }

/-- A page whose only record has no email. -/
def blankPage : UserListResult :=
  { Data := [some (mkUser "u9" "ghost" none "ACTIVE" false)],
    NextMarker := none, PreviousMarker := none, Limit := some 100, Count := some 1 }

/-- A remote that answers every request with `blankPage`. -/
def blankService : UsersService :=
  { baseURL := "https://api.split.io"
    parseErr := none
    get := fun _ => (blankPage, some { StatusCode := 200, Body := "blank" }, none) }

/-- A remote whose first page points on to the cursor `m1` and whose every other answer is a
transport error. -/
def brokenService : UsersService :=
  { baseURL := "https://api.split.io"
    parseErr := none
    get := fun url =>
      if url = "https://api.split.io/users?limit=100" then
        (samplePage0, some { StatusCode := 200, Body := "page0" }, none)
      else
        (UserListResult.zero, some { StatusCode := 503, Body := "" },
          some { msg := "503 Service Unavailable" }) }

/-- A decoded page whose `Data` holds a null entry, as a body with `"data": [null]` decodes. -/
def nullPage : UserListResult :=
  { Data := [none], NextMarker := none, PreviousMarker := none, Limit := none, Count := none }

/-- A remote that answers every request with `nullPage` and a nil error. -/
def nullService : UsersService :=
  { baseURL := "https://api.split.io"
    parseErr := none
    get := fun _ => (nullPage, some { StatusCode := 200, Body := "null entry" }, none) }

/-- A last page whose `Data` holds the record of bob and then a null entry. -/
def nullAfterPage : UserListResult :=
  { Data := [some (mkUser "u1" "bob" (some "bob@example.com") "PENDING" false), none],
    NextMarker := none, PreviousMarker := none, Limit := some 100, Count := some 2 }

/-- A remote that answers every request with `nullAfterPage` and a nil error. -/
def nullAfterService : UsersService :=
  { baseURL := "https://api.split.io"
    parseErr := none
    get := fun _ => (nullAfterPage, some { StatusCode := 200, Body := "bob, null" }, none) }

/-- A last page whose `Data` holds a null entry and then the record of bob. -/
def nullBeforePage : UserListResult :=
  { Data := [none, some (mkUser "u1" "bob" (some "bob@example.com") "PENDING" false)],
    NextMarker := none, PreviousMarker := none, Limit := some 100, Count := some 2 }

/-- A remote that answers every request with `nullBeforePage` and a nil error. -/
def nullBeforeService : UsersService :=
  { baseURL := "https://api.split.io"
    parseErr := none
    get := fun _ => (nullBeforePage, some { StatusCode := 200, Body := "null, bob" }, none) }

/-- A last page whose `Data` holds a record without email and then a null entry. -/
def ghostNullPage : UserListResult :=
  { Data := [some (mkUser "u9" "ghost" none "ACTIVE" false), none],
    NextMarker := none, PreviousMarker := none, Limit := some 100, Count := some 2 }

/-- A remote that answers every request with `ghostNullPage` and a nil error. -/
def ghostNullService : UsersService :=
  { baseURL := "https://api.split.io"
    parseErr := none
    get := fun _ => (ghostNullPage, some { StatusCode := 200, Body := "ghost, null" }, none) }

/-- A first page whose `Data` is one null entry and which points on to the cursor `m1`. -/
def nullHeadPage : UserListResult :=
  { Data := [none], NextMarker := some "m1", PreviousMarker := none, Limit := some 100,
    Count := some 1 }

/-- A remote of two pages, `nullHeadPage` and then `samplePage1`; every other URL is answered
with an error. -/
def nullHeadService : UsersService :=
  { baseURL := "https://api.split.io"
    parseErr := none
    get := fun url =>
      if url = "https://api.split.io/users?limit=100" then
        (nullHeadPage, some { StatusCode := 200, Body := "page0" }, none)
      else if url = "https://api.split.io/users?limit=100&limit=m1" then
        (samplePage1, some { StatusCode := 200, Body := "page1" }, none)
      else
        (UserListResult.zero, some { StatusCode := 404, Body := "" }, some { msg := "404" }) }

/-- A resource state as an earlier read left it. -/
def priorState (email : String) : ResourceData :=
  { id := "old-id", email := email, name := "old-name", tfa := true, status := "DEACTIVATED" }

/-! ## Lemmas on the scan -/

theorem scanData_records (email : String) (data : List (Option User))
    (hrec : data.all Option.isSome = true) :
    scanData email data =
      match (data.filterMap id).find? (fun uu => uu.hasEmail email) with
      | some r => Scan.found r
      | none => Scan.exhausted := by
  induction data with
  | nil => rfl
  | cons e rest ih =>
    cases e with
    | none => simp at hrec
    | some uu =>
      have hrest : rest.all Option.isSome = true := by
        simp only [List.all_cons, Bool.and_eq_true] at hrec
        exact hrec.2
      cases hE : uu.Email with
      | none =>
        simp [scanData, hE, User.hasEmail, ih hrest]
      | some e =>
        by_cases he : e = email
        · simp [scanData, hE, User.hasEmail, he]
        · simp [scanData, hE, User.hasEmail, he, ih hrest]

theorem listed_iff (u : UsersService) (opts : UserListOpts) (p : UserListResult) :
    listed u opts p = true ↔ (u.List opts).result = some p ∧ (u.List opts).err = none := by
  simp [listed]

theorem records_cons (p : UserListResult) (rest : List UserListResult) :
    records (p :: rest) = p.Data.filterMap id ++ records rest := by
  simp [records]

/-- On a finite forward chain of pages of records, with one unit of fuel per page, the loop
returns the first record in scan order whose email matches, or the zero value when there is
none, with a nil error. -/
theorem findLoop_chain (u : UsersService) (email : String) :
    ∀ (pages : List UserListResult) (opts : UserListOpts) (fuel : Nat),
      forwardChain u opts pages = true →
      (∀ p ∈ pages, p.allRecords = true) →
      pages.length ≤ fuel →
      ∃ resp, (u.findLoop email fuel opts).outcome =
        Run.returned
          { user := ((records pages).find? (fun uu => uu.hasEmail email)).getD User.zero,
            response := resp, err := none } := by
  intro pages
  induction pages with
  | nil => intro opts fuel h; simp [forwardChain] at h
  | cons p rest ih =>
    intro opts fuel hchain hrec hfuel
    cases fuel with
    | zero => simp at hfuel
    | succ fuel =>
      simp only [forwardChain, Bool.and_eq_true] at hchain
      obtain ⟨hl, hnext⟩ := hchain
      obtain ⟨hres, herr⟩ := (listed_iff u opts p).1 hl
      have hp : p.Data.all Option.isSome = true := hrec p (List.mem_cons_self _ _)
      have hscan := scanData_records email p.Data hp
      rw [records_cons, List.find?_append]
      cases hfind : (p.Data.filterMap id).find? (fun uu => uu.hasEmail email) with
      | some r =>
        rw [hfind] at hscan
        refine ⟨(u.List opts).response, ?_⟩
        simp [UsersService.findLoop, herr, hres, hscan]
      | none =>
        rw [hfind] at hscan
        cases hm : p.NextMarker with
        | none =>
          rw [hm] at hnext
          have hnil : rest = [] := by simpa using hnext
          subst hnil
          refine ⟨(u.List opts).response, ?_⟩
          simp [UsersService.findLoop, herr, hres, hscan, hm, records]
        | some marker =>
          rw [hm] at hnext
          obtain ⟨resp, hresp⟩ := ih { opts with After := marker } fuel hnext
            (fun q hq => hrec q (List.mem_cons_of_mem _ hq))
            (by simpa using hfuel)
          refine ⟨resp, ?_⟩
          simp [UsersService.findLoop, herr, hres, hscan, hm, hresp]

/-- A `List` call of the loop that returns an error ends the call: the error is returned as
it is, with the zero-value user and that call's response, and the failing request is the last
one issued. -/
theorem findLoop_error (u : UsersService) (email : String) :
    ∀ (fuel : Nat) (opts o : UserListOpts) (e : GoError),
      o ∈ (u.findLoop email fuel opts).requests →
      (u.List o).err = some e →
      (u.findLoop email fuel opts).outcome =
          Run.returned { user := User.zero, response := (u.List o).response, err := some e } ∧
        (u.findLoop email fuel opts).requests.getLast? = some o := by
  intro fuel
  induction fuel with
  | zero => intro opts o e ho; simp [UsersService.findLoop] at ho
  | succ fuel ih =>
    intro opts o e ho he
    unfold UsersService.findLoop at ho ⊢
    cases herr : (u.List opts).err with
    | some err =>
      simp only [herr] at ho ⊢
      have hoo : o = opts := by simpa using ho
      subst hoo
      rw [herr] at he
      cases he
      simp
    | none =>
      simp only [herr] at ho ⊢
      have hne : o ≠ opts := by
        intro h
        subst h
        rw [herr] at he
        cases he
      cases hres : (u.List opts).result with
      | none =>
        simp only [hres] at ho
        exact absurd (by simpa using ho) hne
      | some userList =>
        simp only [hres] at ho ⊢
        cases hscan : scanData email userList.Data with
        | found uu =>
          simp only [hscan] at ho
          exact absurd (by simpa using ho) hne
        | nilEntry =>
          simp only [hscan] at ho
          exact absurd (by simpa using ho) hne
        | exhausted =>
          simp only [hscan] at ho ⊢
          cases hm : userList.NextMarker with
          | none =>
            simp only [hm] at ho
            exact absurd (by simpa using ho) hne
          | some marker =>
            simp only [hm] at ho ⊢
            have hmem : o ∈ (u.findLoop email fuel { opts with After := marker }).requests := by
              rcases List.mem_cons.1 ho with h | h
              · exact absurd h hne
              · exact h
            obtain ⟨h1, h2⟩ := ih { opts with After := marker } o e hmem he
            refine ⟨h1, ?_⟩
            cases hreq : (u.findLoop email fuel { opts with After := marker }).requests with
            | nil => rw [hreq] at hmem; cases hmem
            | cons a as =>
              rw [hreq] at h2
              simpa [List.getLast?_cons_cons] using h2

/-! ## The requests of the scan -/

theorem scanData_found_hasMatch (email : String) (p : UserListResult) (uu : User)
    (hrec : p.allRecords = true) (h : scanData email p.Data = Scan.found uu) :
    p.hasMatch email = true := by
  rw [scanData_records email p.Data hrec] at h
  cases hfind : (p.Data.filterMap id).find? (fun uu => uu.hasEmail email) with
  | none => rw [hfind] at h; cases h
  | some r =>
    simp only [UserListResult.hasMatch, List.any_eq_true]
    have hr : r.hasEmail email = true := by
      have := List.find?_some hfind
      simpa using this
    exact ⟨r, List.mem_of_find?_eq_some hfind, hr⟩

theorem scanData_exhausted_hasMatch (email : String) (p : UserListResult)
    (hrec : p.allRecords = true) (h : scanData email p.Data = Scan.exhausted) :
    p.hasMatch email = false := by
  rw [scanData_records email p.Data hrec] at h
  cases hfind : (p.Data.filterMap id).find? (fun uu => uu.hasEmail email) with
  | some r => rw [hfind] at h; cases h
  | none =>
    simp only [UserListResult.hasMatch, List.any_eq_false]
    exact List.find?_eq_none.1 hfind

theorem scanData_not_nilEntry (email : String) (p : UserListResult)
    (hrec : p.allRecords = true) : scanData email p.Data ≠ Scan.nilEntry := by
  rw [scanData_records email p.Data hrec]
  cases (p.Data.filterMap id).find? (fun uu => uu.hasEmail email) <;> simp

/-- A forward chain from a request is determined by the remote. -/
theorem forwardChain_unique (u : UsersService) :
    ∀ (ps qs : List UserListResult) (opts : UserListOpts),
      forwardChain u opts ps = true → forwardChain u opts qs = true → ps = qs := by
  intro ps
  induction ps with
  | nil => intro qs opts h; simp [forwardChain] at h
  | cons p rest ih =>
    intro qs opts hp hq
    cases qs with
    | nil => simp [forwardChain] at hq
    | cons q rest' =>
      simp only [forwardChain, Bool.and_eq_true] at hp hq
      obtain ⟨hlp, hnp⟩ := hp
      obtain ⟨hlq, hnq⟩ := hq
      have h1 := ((listed_iff u opts p).1 hlp).1
      have h2 := ((listed_iff u opts q).1 hlq).1
      have hpq : p = q := by
        rw [h1] at h2
        exact Option.some.inj h2
      subst hpq
      cases hm : p.NextMarker with
      | none =>
        rw [hm] at hnp hnq
        have e1 : rest = [] := by simpa using hnp
        have e2 : rest' = [] := by simpa using hnq
        rw [e1, e2]
      | some marker =>
        rw [hm] at hnp hnq
        rw [ih rest' { opts with After := marker } hnp hnq]

theorem requestsFollow_single (u : UsersService) (email : String) (p : UserListResult)
    (rest : List UserListResult) (opts : UserListOpts)
    (hchain : forwardChain u opts (p :: rest) = true)
    (hs : p.hasMatch email = true ∨ p.NextMarker = none) :
    RequestsFollow u email (p :: rest) opts [opts] := by
  refine ⟨by simp, by simp, ?_, ?_, ?_, ?_⟩
  · intro i r hi
    cases i with
    | zero =>
      have : opts = r := by simpa using hi
      subst this
      simpa using hchain
    | succ i => simp at hi
  · intro i q hi
    simp at hi
  · intro q hq
    have : p = q := by simpa using hq
    subst this
    exact hs
  · intro r hr
    have : r = opts := by simpa using hr
    subst this
    rfl

theorem requestsFollow_cons (u : UsersService) (email : String) (p : UserListResult)
    (rest : List UserListResult) (opts : UserListOpts) (marker : String)
    (reqs : List UserListOpts)
    (hchain : forwardChain u opts (p :: rest) = true)
    (hno : p.hasMatch email = false) (hm : p.NextMarker = some marker)
    (ih : RequestsFollow u email rest { opts with After := marker } reqs) :
    RequestsFollow u email (p :: rest) opts (opts :: reqs) := by
  obtain ⟨i1, i2, i3, i4, i5, i6⟩ := ih
  have hpos : 0 < reqs.length := by
    cases reqs with
    | nil => simp at i1
    | cons a as => simp
  refine ⟨by simp, by simpa using i2, ?_, ?_, ?_, ?_⟩
  · intro i r hi
    cases i with
    | zero =>
      have : opts = r := by simpa using hi
      subst this
      simpa using hchain
    | succ i =>
      have hi' : reqs[i]? = some r := by simpa using hi
      simpa using i3 i r hi'
  · intro i q hi hq
    cases i with
    | zero =>
      have : p = q := by simpa using hq
      subst this
      refine ⟨hno, marker, opts, hm, by simp, ?_⟩
      simpa using i1
    | succ i =>
      have hq' : rest[i]? = some q := by simpa using hq
      have hi' : i + 1 < reqs.length := by simpa using hi
      obtain ⟨h1, mk, r, h2, h3, h4⟩ := i4 i q hi' hq'
      exact ⟨h1, mk, r, h2, by simpa using h3, by simpa using h4⟩
  · intro q hq
    apply i5 q
    have hlen : (opts :: reqs).length - 1 = (reqs.length - 1) + 1 := by
      simp only [List.length_cons]
      omega
    rw [hlen] at hq
    simpa using hq
  · intro r hr
    rcases List.mem_cons.1 hr with h | h
    · subst h; rfl
    · have hA : ({ r with After := marker } : UserListOpts) = { opts with After := marker } :=
        i6 r h
      cases r
      cases opts
      simp only [UserListOpts.mk.injEq] at hA ⊢
      obtain ⟨a, b, c, _, d⟩ := hA
      exact ⟨a, b, c, trivial, d⟩

/-- On a finite forward chain of pages of records, with one unit of fuel per page, the
requests of the loop follow the chain. -/
theorem findLoop_requests (u : UsersService) (email : String) :
    ∀ (pages : List UserListResult) (opts : UserListOpts) (fuel : Nat),
      forwardChain u opts pages = true →
      (∀ p ∈ pages, p.allRecords = true) →
      pages.length ≤ fuel →
      RequestsFollow u email pages opts (u.findLoop email fuel opts).requests := by
  intro pages
  induction pages with
  | nil => intro opts fuel h; simp [forwardChain] at h
  | cons p rest ih =>
    intro opts fuel hchain hrec hfuel
    cases fuel with
    | zero => simp at hfuel
    | succ fuel =>
      have hchain0 := hchain
      simp only [forwardChain, Bool.and_eq_true] at hchain
      obtain ⟨hl, hnext⟩ := hchain
      obtain ⟨hres, herr⟩ := (listed_iff u opts p).1 hl
      have hp : p.allRecords = true := hrec p (List.mem_cons_self _ _)
      cases hscan : scanData email p.Data with
      | nilEntry => exact absurd hscan (scanData_not_nilEntry email p hp)
      | found uu =>
        have hreq : (u.findLoop email (fuel + 1) opts).requests = [opts] := by
          simp [UsersService.findLoop, herr, hres, hscan]
        rw [hreq]
        exact requestsFollow_single u email p rest opts hchain0
          (Or.inl (scanData_found_hasMatch email p uu hp hscan))
      | exhausted =>
        cases hm : p.NextMarker with
        | none =>
          have hreq : (u.findLoop email (fuel + 1) opts).requests = [opts] := by
            simp [UsersService.findLoop, herr, hres, hscan, hm]
          rw [hreq]
          exact requestsFollow_single u email p rest opts hchain0 (Or.inr hm)
        | some marker =>
          rw [hm] at hnext
          have hreq : (u.findLoop email (fuel + 1) opts).requests =
              opts :: (u.findLoop email fuel { opts with After := marker }).requests := by
            simp [UsersService.findLoop, herr, hres, hscan, hm]
          rw [hreq]
          exact requestsFollow_cons u email p rest opts marker _ hchain0
            (scanData_exhausted_hasMatch email p hp hscan) hm
            (ih { opts with After := marker } fuel hnext
              (fun q hq => hrec q (List.mem_cons_of_mem _ hq)) (by simpa using hfuel))

/-! ## `FindByEmail` on a finite forward chain -/

/-- Without null entries: on a remote whose pages form a finite forward chain of records none
of which has an
email equal to the input, `FindByEmail` (given one loop iteration per page) returns the
zero-value `User`, every field absent and `Groups` empty, together with a nil error. -/
theorem FindByEmail_no_match_returns_zero (u : UsersService) (email : String)
    (pages : List UserListResult) (fuel : Nat)
    (hchain : forwardChain u firstRequest pages = true)
    (hrec : ∀ p ∈ pages, p.allRecords = true)
    (hnone : ∀ uu ∈ records pages, uu.Email ≠ some email)
    (hfuel : pages.length ≤ fuel) :
    ∃ resp, (u.FindByEmail email fuel).outcome =
      Run.returned
        { user := { ID := none, Type_ := none, Name := none, Email := none, Status := none,
                    TFA := none, Groups := [] },
          response := resp, err := none } := by
  obtain ⟨resp, h⟩ := findLoop_chain u email pages firstRequest fuel hchain hrec hfuel
  refine ⟨resp, ?_⟩
  have hfind : (records pages).find? (fun uu => uu.hasEmail email) = none := by
    rw [List.find?_eq_none]
    intro uu huu
    simpa [User.hasEmail] using hnone uu huu
  rw [hfind] at h
  exact h

/-- At the sample remote nobody has the email `nobody@nowhere.test`. -/
theorem FindByEmail_no_match_returns_zero_witness :
    forwardChain sampleService firstRequest [samplePage0, samplePage1] = true ∧
    (∃ resp, (sampleService.FindByEmail "nobody@nowhere.test" 2).outcome =
      Run.returned
        { user := { ID := none, Type_ := none, Name := none, Email := none, Status := none,
                    TFA := none, Groups := [] },
          response := resp, err := none }) :=
  ⟨by decide,
   FindByEmail_no_match_returns_zero sampleService "nobody@nowhere.test"
     [samplePage0, samplePage1] 2 (by decide) (by decide) (by decide) (by decide)⟩

/-- Without null entries: on a finite forward chain of pages of records that holds a record
whose email is
present and equal to the input, `FindByEmail` returns a nil error and a `User` equal to the
first such record in scan order (earliest page, then earliest position in its `Data`). -/
theorem FindByEmail_returns_first_match (u : UsersService) (email : String)
    (pages : List UserListResult) (fuel : Nat) (r : User)
    (hchain : forwardChain u firstRequest pages = true)
    (hrec : ∀ p ∈ pages, p.allRecords = true)
    (hfirst : (records pages).find? (fun uu => decide (uu.Email = some email)) = some r)
    (hfuel : pages.length ≤ fuel) :
    ∃ resp, (u.FindByEmail email fuel).outcome =
      Run.returned { user := r, response := resp, err := none } := by
  obtain ⟨resp, h⟩ := findLoop_chain u email pages firstRequest fuel hchain hrec hfuel
  refine ⟨resp, ?_⟩
  have hfind : (records pages).find? (fun uu => uu.hasEmail email) = some r := hfirst
  rw [hfind] at h
  exact h

/-- At the sample remote, of the two records with email `bob@example.com` the earlier
one, `u1`, is returned. -/
theorem FindByEmail_returns_first_match_witness :
    (records [samplePage0, samplePage1]).find?
        (fun uu => decide (uu.Email = some "bob@example.com")) =
      some (mkUser "u1" "bob" (some "bob@example.com") "PENDING" false) ∧
    (∃ resp, (sampleService.FindByEmail "bob@example.com" 2).outcome =
      Run.returned { user := mkUser "u1" "bob" (some "bob@example.com") "PENDING" false,
                     response := resp, err := none }) :=
  ⟨by decide,
   FindByEmail_returns_first_match sampleService "bob@example.com"
     [samplePage0, samplePage1] 2 _ (by decide) (by decide) (by decide) (by decide)⟩

/-- Without null entries `FindByEmail` never matches a record whose email is absent. On a
finite forward chain
of pages of records that all have a nil `Email`, for every input email, the empty string
included, the inner scan of no page reports a match and the call returns the zero-value
`User` with a nil error. -/
theorem FindByEmail_absent_email_never_matches (u : UsersService) (email : String)
    (pages : List UserListResult) (fuel : Nat)
    (hchain : forwardChain u firstRequest pages = true)
    (hrec : ∀ p ∈ pages, p.allRecords = true)
    (habsent : ∀ uu ∈ records pages, uu.Email = none)
    (hfuel : pages.length ≤ fuel) :
    (∀ p ∈ pages, scanData email p.Data = Scan.exhausted) ∧
    ∃ resp, (u.FindByEmail email fuel).outcome =
      Run.returned
        { user := { ID := none, Type_ := none, Name := none, Email := none, Status := none,
                    TFA := none, Groups := [] },
          response := resp, err := none } := by
  constructor
  · intro p hp
    rw [scanData_records email p.Data (hrec p hp)]
    have hfind : (p.Data.filterMap id).find? (fun uu => uu.hasEmail email) = none := by
      rw [List.find?_eq_none]
      intro uu huu
      have hmem : uu ∈ records pages := by
        simp only [records, List.mem_flatMap]
        exact ⟨p, hp, huu⟩
      simp [User.hasEmail, habsent uu hmem]
    rw [hfind]
  · obtain ⟨resp, h⟩ := findLoop_chain u email pages firstRequest fuel hchain hrec hfuel
    refine ⟨resp, ?_⟩
    have hfind : (records pages).find? (fun uu => uu.hasEmail email) = none := by
      rw [List.find?_eq_none]
      intro uu huu
      simp [User.hasEmail, habsent uu huu]
    rw [hfind] at h
    exact h

/-- At a remote whose only record has no email, searched for the empty string. -/
theorem FindByEmail_absent_email_never_matches_witness :
    (∀ uu ∈ records [blankPage], uu.Email = none) ∧
    (∀ p ∈ [blankPage], scanData "" p.Data = Scan.exhausted) ∧
    ∃ resp, (blankService.FindByEmail "" 1).outcome =
      Run.returned
        { user := { ID := none, Type_ := none, Name := none, Email := none, Status := none,
                    TFA := none, Groups := [] },
          response := resp, err := none } :=
  ⟨by decide,
   FindByEmail_absent_email_never_matches blankService "" [blankPage] 1
     (by decide) (by decide) (by decide) (by decide)⟩

/-- Without null entries: on a finite forward chain of `n` pages of records, with one loop
iteration per
page, the `List` requests of `FindByEmail` are the prefix of the chain up to and including the
first page that holds a match or has no `NextMarker`: the first request has `Limit` 100 and no
`After` cursor, the request in position `i` is answered with page `i`, every page before the
last one requested has no match and its `NextMarker` is the `After` of the next request
(whose `Limit` is 100 again), the last page requested holds a match or has no `NextMarker`,
no cursor is requested twice, there are at most `n` requests, and the call returns. -/
theorem FindByEmail_requests_follow_chain (u : UsersService) (email : String)
    (pages : List UserListResult) (fuel : Nat)
    (hchain : forwardChain u firstRequest pages = true)
    (hrec : ∀ p ∈ pages, p.allRecords = true)
    (hfuel : pages.length ≤ fuel) :
    ∃ reqs, (u.FindByEmail email fuel).requests = reqs ∧
      reqs[0]? =
        some { Status := "", Limit := 100, Before := 0, After := "", GroupID := "" } ∧
      1 ≤ reqs.length ∧ reqs.length ≤ pages.length ∧
      (∀ (i : Nat) r p, reqs[i]? = some r → pages[i]? = some p → listed u r p = true) ∧
      (∀ (i : Nat) p, i + 1 < reqs.length → pages[i]? = some p →
        p.hasMatch email = false ∧
        ∃ marker, p.NextMarker = some marker ∧
          reqs[i + 1]? =
            some { Status := "", Limit := 100, Before := 0, After := marker, GroupID := "" }) ∧
      (∀ p, pages[reqs.length - 1]? = some p →
        p.hasMatch email = true ∨ p.NextMarker = none) ∧
      (reqs.map fun r => r.After).Nodup ∧
      ∃ ret, (u.FindByEmail email fuel).outcome = Run.returned ret := by
  obtain ⟨i1, i2, i3, i4, i5, i6⟩ :=
    findLoop_requests u email pages firstRequest fuel hchain hrec hfuel
  obtain ⟨resp, hret⟩ := findLoop_chain u email pages firstRequest fuel hchain hrec hfuel
  refine ⟨(u.findLoop email fuel firstRequest).requests, rfl, i1, ?_, i2, ?_, ?_, i5, ?_,
    ⟨_, hret⟩⟩
  · cases hl : (u.findLoop email fuel firstRequest).requests with
    | nil => rw [hl] at i1; simp at i1
    | cons a as => simp
  · intro i r p hr hp
    have hc := i3 i r hr
    obtain ⟨hlt, hget⟩ := List.getElem?_eq_some_iff.1 hp
    rw [List.drop_eq_getElem_cons hlt, hget] at hc
    simp only [forwardChain, Bool.and_eq_true] at hc
    exact hc.1
  · intro i p hi hp
    obtain ⟨h1, marker, r, h2, h3, h4⟩ := i4 i p hi hp
    refine ⟨h1, marker, h2, ?_⟩
    rw [h4]
    have hr := i6 r (List.getElem?_mem h3)
    cases r
    simp only [firstRequest, UserListOpts.zero, UserListOpts.mk.injEq] at hr
    obtain ⟨a, b, c, _, d⟩ := hr
    simp [a, b, c, d]
  · have hnd : (u.findLoop email fuel firstRequest).requests.Nodup := by
      rw [List.nodup_iff_getElem?_ne_getElem?]
      intro i j hij hj heq
      have hi : i < (u.findLoop email fuel firstRequest).requests.length := by omega
      obtain ⟨r, hr⟩ : ∃ r, (u.findLoop email fuel firstRequest).requests[i]? = some r :=
        ⟨_, List.getElem?_eq_getElem hi⟩
      have hr' : (u.findLoop email fuel firstRequest).requests[j]? = some r := by
        rw [← heq]; exact hr
      have hu := forwardChain_unique u _ _ r (i3 i r hr) (i3 j r hr')
      have hlen := congrArg List.length hu
      simp only [List.length_drop] at hlen
      omega
    refine List.Nodup.map_on ?_ hnd
    intro x hx y hy hxy
    have hx' := i6 x hx
    have hy' := i6 y hy
    cases x
    cases y
    simp only [firstRequest, UserListOpts.zero, UserListOpts.mk.injEq] at hx' hy' hxy ⊢
    obtain ⟨a, b, c, _, d⟩ := hx'
    obtain ⟨a', b', c', _, d'⟩ := hy'
    exact ⟨by rw [a, a'], by rw [b, b'], by rw [c, c'], hxy, by rw [d, d']⟩

/-- At the sample remote and an email nobody has, both pages are requested, the second
with the cursor `m1` of the first. -/
theorem FindByEmail_requests_follow_chain_witness :
    (sampleService.FindByEmail "nobody@nowhere.test" 2).requests =
        [{ Status := "", Limit := 100, Before := 0, After := "", GroupID := "" },
         { Status := "", Limit := 100, Before := 0, After := "m1", GroupID := "" }] ∧
    ∃ reqs, (sampleService.FindByEmail "nobody@nowhere.test" 2).requests = reqs ∧
      reqs[0]? =
        some { Status := "", Limit := 100, Before := 0, After := "", GroupID := "" } ∧
      1 ≤ reqs.length ∧ reqs.length ≤ [samplePage0, samplePage1].length ∧
      (∀ (i : Nat) r p, reqs[i]? = some r → [samplePage0, samplePage1][i]? = some p →
        listed sampleService r p = true) ∧
      (∀ (i : Nat) p, i + 1 < reqs.length → [samplePage0, samplePage1][i]? = some p →
        p.hasMatch "nobody@nowhere.test" = false ∧
        ∃ marker, p.NextMarker = some marker ∧
          reqs[i + 1]? =
            some { Status := "", Limit := 100, Before := 0, After := marker, GroupID := "" }) ∧
      (∀ p, [samplePage0, samplePage1][reqs.length - 1]? = some p →
        p.hasMatch "nobody@nowhere.test" = true ∨ p.NextMarker = none) ∧
      (reqs.map fun r => r.After).Nodup ∧
      ∃ ret, (sampleService.FindByEmail "nobody@nowhere.test" 2).outcome = Run.returned ret :=
  ⟨by decide,
   FindByEmail_requests_follow_chain sampleService "nobody@nowhere.test"
     [samplePage0, samplePage1] 2 (by decide) (by decide) (by decide)⟩

/-! ## The data source read -/

/-- C6: when a `List` call made during the scan returns a non-nil error, `FindByEmail` returns
that very error with the zero-value user, the failing request is the last one it issues, and
`dataSourceSplitUserRead` returns the diagnostic of that error and leaves the resource data,
id and all four attributes, as it was. -/
theorem read_error_leaves_state (d : ResourceData) (m : Config) (fuel : Nat)
    (o : UserListOpts) (e : GoError)
    (hcall : o ∈ (m.API.Users.FindByEmail d.email fuel).requests)
    (herr : (m.API.Users.List o).err = some e) :
    (m.API.Users.FindByEmail d.email fuel).outcome =
        Run.returned
          { user := User.zero, response := (m.API.Users.List o).response, err := some e } ∧
      (m.API.Users.FindByEmail d.email fuel).requests.getLast? = some o ∧
      dataSourceSplitUserRead fuel d m =
        Run.returned ([{ Severity := Severity.Error, Summary := e.msg, Detail := "" }], d) := by
  obtain ⟨h1, h2⟩ := findLoop_error m.API.Users d.email fuel firstRequest o e hcall herr
  refine ⟨h1, h2, ?_⟩
  have h1' : (m.API.Users.FindByEmail d.email fuel).outcome =
      Run.returned
        { user := User.zero, response := (m.API.Users.List o).response, err := some e } := h1
  simp [dataSourceSplitUserRead, ResourceData.Get, h1', diag.FromErr]

/-- C6, at a remote whose second page fails with a 503. -/
theorem read_error_leaves_state_witness :
    { firstRequest with After := "m1" } ∈
        (brokenService.FindByEmail "carol@example.com" 5).requests ∧
    (brokenService.List { firstRequest with After := "m1" }).err =
        some { msg := "503 Service Unavailable" } ∧
    dataSourceSplitUserRead 5 (priorState "carol@example.com")
        { API := { Users := brokenService } } =
      Run.returned
        ([{ Severity := Severity.Error, Summary := "503 Service Unavailable", Detail := "" }],
          priorState "carol@example.com") :=
  ⟨by decide, by decide,
   (read_error_leaves_state (priorState "carol@example.com")
      { API := { Users := brokenService } } 5 { firstRequest with After := "m1" }
      { msg := "503 Service Unavailable" } (by decide) (by decide)).2.2⟩

/-- Without null entries: when the configured email matches a record of a finite forward chain
of pages of
records, `dataSourceSplitUserRead` returns no diagnostics and the id, name, email, 2fa and
status of the resulting state are the first matching record's `ID`, `Name`, `Email`, `TFA`
and `Status`, an absent field read as the empty string or `false`, whatever the five values
were before; the email written is the configured email. -/
theorem read_populates_from_match (d : ResourceData) (m : Config)
    (pages : List UserListResult) (fuel : Nat) (r : User)
    (hchain : forwardChain m.API.Users firstRequest pages = true)
    (hrec : ∀ p ∈ pages, p.allRecords = true)
    (hfirst : (records pages).find? (fun uu => decide (uu.Email = some d.email)) = some r)
    (hfuel : pages.length ≤ fuel) :
    dataSourceSplitUserRead fuel d m =
        Run.returned
          ([], { id := r.ID.getD "", email := r.Email.getD "", name := r.Name.getD "",
                 tfa := r.TFA.getD false, status := r.Status.getD "" }) ∧
      r.Email.getD "" = d.email := by
  obtain ⟨resp, h⟩ := findLoop_chain m.API.Users d.email pages firstRequest fuel hchain hrec hfuel
  have hfind : (records pages).find? (fun uu => uu.hasEmail d.email) = some r := hfirst
  rw [hfind] at h
  have h' : (m.API.Users.FindByEmail d.email fuel).outcome =
      Run.returned { user := r, response := resp, err := none } := h
  have hmail : r.Email = some d.email := by
    have := List.find?_some hfirst
    simpa using this
  refine ⟨?_, by simp [hmail]⟩
  simp [dataSourceSplitUserRead, ResourceData.Get, ResourceData.Set, ResourceData.SetId, h',
    User.GetID, User.GetName, User.GetEmail, User.GetTFA, User.GetStatus]

/-- At the sample remote, starting from a state an earlier read filled in. -/
theorem read_populates_from_match_witness :
    (records [samplePage0, samplePage1]).find?
        (fun uu => decide (uu.Email = some (priorState "carol@example.com").email)) =
      some (mkUser "u3" "carol" (some "carol@example.com") "ACTIVE" false) ∧
    dataSourceSplitUserRead 2 (priorState "carol@example.com")
        { API := { Users := sampleService } } =
      Run.returned
        ([], { id := "u3", email := "carol@example.com", name := "carol", tfa := false,
               status := "ACTIVE" }) :=
  ⟨by decide,
   (read_populates_from_match (priorState "carol@example.com")
      { API := { Users := sampleService } } [samplePage0, samplePage1] 2
      (mkUser "u3" "carol" (some "carol@example.com") "ACTIVE" false)
      (by decide) (by decide) (by decide) (by decide)).1⟩

/-- Without null entries: when the configured email matches no record of a finite forward chain
of pages of
records, `dataSourceSplitUserRead` returns no diagnostics and writes zero values as if a user
had been found: id, name, email and status become the empty string and 2fa becomes `false`. -/
theorem read_no_match_writes_zero (d : ResourceData) (m : Config)
    (pages : List UserListResult) (fuel : Nat)
    (hchain : forwardChain m.API.Users firstRequest pages = true)
    (hrec : ∀ p ∈ pages, p.allRecords = true)
    (hnone : ∀ uu ∈ records pages, uu.Email ≠ some d.email)
    (hfuel : pages.length ≤ fuel) :
    dataSourceSplitUserRead fuel d m =
      Run.returned ([], { id := "", email := "", name := "", tfa := false, status := "" }) := by
  obtain ⟨resp, h⟩ := findLoop_chain m.API.Users d.email pages firstRequest fuel hchain hrec hfuel
  have hfind : (records pages).find? (fun uu => uu.hasEmail d.email) = none := by
    rw [List.find?_eq_none]
    intro uu huu
    simpa [User.hasEmail] using hnone uu huu
  rw [hfind] at h
  have h' : (m.API.Users.FindByEmail d.email fuel).outcome =
      Run.returned { user := User.zero, response := resp, err := none } := h
  simp [dataSourceSplitUserRead, ResourceData.Get, ResourceData.Set, ResourceData.SetId, h',
    User.GetID, User.GetName, User.GetEmail, User.GetTFA, User.GetStatus, User.zero]

/-- At the sample remote the configured email `nobody@nowhere.test` is replaced by the
empty string. -/
theorem read_no_match_writes_zero_witness :
    (priorState "nobody@nowhere.test").email = "nobody@nowhere.test" ∧
    dataSourceSplitUserRead 2 (priorState "nobody@nowhere.test")
        { API := { Users := sampleService } } =
      Run.returned ([], { id := "", email := "", name := "", tfa := false, status := "" }) :=
  ⟨by decide,
   read_no_match_writes_zero (priorState "nobody@nowhere.test")
     { API := { Users := sampleService } } [samplePage0, samplePage1] 2
     (by decide) (by decide) (by decide) (by decide)⟩

/-! ## The query string of `List` -/

theorem escapeChar_digitChar : ∀ k, k < 10 → escapeChar (Nat.digitChar k) = [Nat.digitChar k] := by
  decide

theorem escapeChar_toDigitsCore :
    ∀ (fuel n : Nat) (ds : List Char), (∀ c ∈ ds, escapeChar c = [c]) →
      ∀ c ∈ Nat.toDigitsCore 10 fuel n ds, escapeChar c = [c] := by
  intro fuel
  induction fuel with
  | zero => intro n ds hds c hc; exact hds c (by simpa [Nat.toDigitsCore] using hc)
  | succ fuel ih =>
    intro n ds hds c hc
    have hd : ∀ c ∈ Nat.digitChar (n % 10) :: ds, escapeChar c = [c] := by
      intro c hc
      rcases List.mem_cons.1 hc with h | h
      · rw [h]; exact escapeChar_digitChar (n % 10) (Nat.mod_lt n (by decide))
      · exact hds c h
    unfold Nat.toDigitsCore at hc
    by_cases h0 : n / 10 = 0
    · simp only [h0, if_true] at hc
      exact hd c hc
    · simp only [h0, if_false] at hc
      exact ih (n / 10) _ hd c hc

theorem flatMap_escapeChar_id (cs : List Char) (h : ∀ c ∈ cs, escapeChar c = [c]) :
    cs.flatMap escapeChar = cs := by
  induction cs with
  | nil => rfl
  | cons c rest ih =>
    rw [List.flatMap_cons, h c (List.mem_cons_self _ _),
      ih (fun x hx => h x (List.mem_cons_of_mem _ hx))]
    rfl

/-- Query escaping leaves the decimal rendering of an integer as it is. -/
theorem QueryEscape_FormatInt (n : Int) : QueryEscape (FormatInt n) = FormatInt n := by
  have hnat : ∀ m : Nat, ∀ c ∈ (Nat.repr m).data, escapeChar c = [c] := by
    intro m c hc
    exact escapeChar_toDigitsCore (m + 1) m [] (by simp) c hc
  cases n with
  | ofNat m =>
    show String.mk ((Nat.repr m).data.flatMap escapeChar) = Nat.repr m
    rw [flatMap_escapeChar_id _ (hnat m)]
  | negSucc m =>
    show String.mk (("-" ++ Nat.repr (m + 1)).data.flatMap escapeChar) = "-" ++ Nat.repr (m + 1)
    rw [flatMap_escapeChar_id]
    intro c hc
    rw [String.data_append] at hc
    rcases List.mem_append.1 hc with h | h
    · have : c = '-' := by simpa using h
      subst this
      decide
    · exact hnat (m + 1) c h

/-- No parameter of the query is ever named anything but `status` or `limit`. -/
theorem Values_keys (o : UserListOpts) :
    ∀ kv ∈ o.Values, kv.1 = "status" ∨ kv.1 = "limit" := by
  intro kv hkv
  simp only [UserListOpts.Values, UserListOpts.fields, encodeFields] at hkv
  repeat' split at hkv
  all_goals simp at hkv
  all_goals aesop

/-- C4: the options `FindByEmail` sends for the second page, `Limit` 100 and `After` the
cursor `m1`, are encoded with the cursor under the name `limit`, and with all five fields set
`Before`, `After` and `GroupID` are all written under `limit`; no parameter is named `before`,
`after` or `groupId`. -/
theorem List_query_sends_cursor_as_limit :
    ({ Status := "", Limit := 100, Before := 0, After := "m1", GroupID := "" } :
        UserListOpts).Values = [("limit", "100"), ("limit", "m1")] ∧
    RequestURLWithQueryParams "https://api.split.io" none "/users"
        { Status := "", Limit := 100, Before := 0, After := "m1", GroupID := "" } =
      ("https://api.split.io/users?limit=100&limit=m1", none) ∧
    ({ Status := "ACTIVE", Limit := 50, Before := 7, After := "m1", GroupID := "g1" } :
        UserListOpts).Values =
      [("status", "ACTIVE"), ("limit", "50"), ("limit", "7"), ("limit", "m1"),
        ("limit", "g1")] := by
  decide

/-- C5, refuted as stated: with `Limit` 0 no `limit` parameter is written at all. -/
theorem Limit_zero_not_emitted :
    ("limit", FormatInt 0) ∉
        ({ Status := "", Limit := 0, Before := 0, After := "", GroupID := "" } :
          UserListOpts).Values ∧
    RequestURLWithQueryParams "https://api.split.io" none "/users"
        { Status := "", Limit := 0, Before := 0, After := "", GroupID := "" } =
      ("https://api.split.io/users", none) := by
  decide

/-- C5, amended: every `Limit` other than 0 is written unchanged, neither clamped nor
rejected. Whatever the other fields hold, the first `limit` parameter is the decimal rendering
of `Limit`, and when `Limit` is the only field set the query string is `limit=` followed by it. -/
theorem Limit_nonzero_passes_through (n : Int) (hn : n ≠ 0) :
    (∀ o : UserListOpts, o.Limit = n →
      o.Values.find? (fun kv => kv.1 == "limit") = some ("limit", FormatInt n)) ∧
    Encode ({ Status := "", Limit := n, Before := 0, After := "", GroupID := "" } :
        UserListOpts).Values = "limit=" ++ FormatInt n := by
  constructor
  · intro o ho
    subst ho
    by_cases hs : o.Status = "" <;>
      simp [UserListOpts.Values, UserListOpts.fields, encodeFields, hn, hs]
  · have hv : ({ Status := "", Limit := n, Before := 0, After := "", GroupID := "" } :
        UserListOpts).Values = [("limit", FormatInt n)] := by
      simp [UserListOpts.Values, UserListOpts.fields, encodeFields, hn]
    have hk : insertKey "limit" [] = ["limit"] := rfl
    have hq : QueryEscape "limit" = "limit" := by decide
    rw [hv]
    simp only [Encode, encodeItems, sortedKeys, hk, List.flatMap_cons, List.flatMap_nil,
      List.filter_cons, beq_self_eq_true, if_true, List.filter_nil, List.map_cons, List.map_nil,
      List.append_nil, hq, QueryEscape_FormatInt]
    rfl

/-- C5 amended, at the bounds 1 and 200 and outside them. -/
theorem Limit_nonzero_passes_through_witness :
    (1 : Int) ≠ 0 ∧
    Encode ({ Status := "", Limit := 1, Before := 0, After := "", GroupID := "" } :
        UserListOpts).Values = "limit=" ++ FormatInt 1 ∧
    Encode ({ Status := "", Limit := 200, Before := 0, After := "", GroupID := "" } :
        UserListOpts).Values = "limit=200" ∧
    Encode ({ Status := "", Limit := 201, Before := 0, After := "", GroupID := "" } :
        UserListOpts).Values = "limit=201" ∧
    Encode ({ Status := "", Limit := -5, Before := 0, After := "", GroupID := "" } :
        UserListOpts).Values = "limit=-5" :=
  ⟨by decide, (Limit_nonzero_passes_through 1 (by decide)).2,
   (Limit_nonzero_passes_through 200 (by decide)).2,
   (Limit_nonzero_passes_through 201 (by decide)).2,
   (Limit_nonzero_passes_through (-5) (by decide)).2⟩

/-! ## Nil dereferences -/

/-- Whenever `List` returns a nil error, its result is non-nil. -/
theorem List_result_of_nil_error (u : UsersService) (opts : UserListOpts)
    (h : (u.List opts).err = none) : (u.List opts).result ≠ none := by
  unfold UsersService.List RequestURLWithQueryParams at h ⊢
  cases hp : u.parseErr with
  | some e => simp [hp] at h
  | none => simp

/-- C1: at a remote whose single page holds the record of bob and then a null entry, the
pages form a finite forward chain in which no record has the email `nobody@nowhere.test`, yet
`FindByEmail` does not return the zero-value `User` with a nil error: past bob it reads
`uu.Email` of the nil entry and panics, however many iterations it is given. -/
theorem FindByEmail_no_match_panics_on_null_entry (fuel : Nat) :
    forwardChain nullAfterService firstRequest [nullAfterPage] = true ∧
    (∀ uu ∈ records [nullAfterPage], uu.Email ≠ some "nobody@nowhere.test") ∧
    (nullAfterService.FindByEmail "nobody@nowhere.test" (fuel + 1)).outcome = Run.panicked := by
  refine ⟨by decide, by decide, ?_⟩
  simp [UsersService.FindByEmail, UsersService.findLoop, UsersService.List,
    RequestURLWithQueryParams, nullAfterService, nullAfterPage, mkUser, scanData]

/-- C2: at a remote whose single page holds a null entry and then the record of bob, the pages
form a finite forward chain whose first record with the email `bob@example.com` is bob, yet
`FindByEmail` does not return bob: it reads `uu.Email` of the nil entry first and panics. -/
theorem FindByEmail_match_panics_on_null_entry (fuel : Nat) :
    forwardChain nullBeforeService firstRequest [nullBeforePage] = true ∧
    (records [nullBeforePage]).find? (fun uu => decide (uu.Email = some "bob@example.com")) =
      some (mkUser "u1" "bob" (some "bob@example.com") "PENDING" false) ∧
    (nullBeforeService.FindByEmail "bob@example.com" (fuel + 1)).outcome = Run.panicked := by
  refine ⟨by decide, by decide, ?_⟩
  simp [UsersService.FindByEmail, UsersService.findLoop, UsersService.List,
    RequestURLWithQueryParams, nullBeforeService, nullBeforePage, scanData]

/-- C3: at a remote of two pages with the distinct cursors none and `m1`, whose first page is
one null entry, holds no match for `carol@example.com` and points on to `m1`, and whose second
page holds carol, `FindByEmail` issues the opening request only and panics on the nil entry:
the request with `After` equal to `m1` that the chain calls for is never made and the call
does not return. -/
theorem FindByEmail_requests_stop_at_null_entry (fuel : Nat) :
    forwardChain nullHeadService firstRequest [nullHeadPage, samplePage1] = true ∧
    nullHeadPage.hasMatch "carol@example.com" = false ∧
    nullHeadPage.NextMarker = some "m1" ∧
    samplePage1.hasMatch "carol@example.com" = true ∧
    (nullHeadService.FindByEmail "carol@example.com" (fuel + 1)).requests =
      [{ Status := "", Limit := 100, Before := 0, After := "", GroupID := "" }] ∧
    (nullHeadService.FindByEmail "carol@example.com" (fuel + 1)).outcome = Run.panicked := by
  have hl : nullHeadService.List
      { Status := "", Limit := 100, Before := 0, After := "", GroupID := "" } =
      { result := some nullHeadPage, response := some { StatusCode := 200, Body := "page0" },
        err := none } := by decide
  refine ⟨by decide, by decide, rfl, by decide, ?_, ?_⟩
  · simp [UsersService.FindByEmail, UsersService.findLoop, UserListOpts.zero, hl, nullHeadPage,
      scanData]
  · simp [UsersService.FindByEmail, UsersService.findLoop, UserListOpts.zero, hl, nullHeadPage,
      scanData]

/-- C7: at a remote whose single page holds a null entry and then the record of bob, the
configured email `bob@example.com` matches a record of the finite forward chain, yet
`dataSourceSplitUserRead` neither returns nor writes the state: the scan panics on the nil
entry before it reaches bob. -/
theorem read_match_panics_on_null_entry (fuel : Nat) :
    forwardChain nullBeforeService firstRequest [nullBeforePage] = true ∧
    (records [nullBeforePage]).find?
        (fun uu => decide (uu.Email = some (priorState "bob@example.com").email)) =
      some (mkUser "u1" "bob" (some "bob@example.com") "PENDING" false) ∧
    dataSourceSplitUserRead (fuel + 1) (priorState "bob@example.com")
        { API := { Users := nullBeforeService } } = Run.panicked := by
  refine ⟨by decide, by decide, ?_⟩
  simp [dataSourceSplitUserRead, ResourceData.Get, priorState, UsersService.FindByEmail,
    UsersService.findLoop, UsersService.List, RequestURLWithQueryParams, nullBeforeService,
    nullBeforePage, scanData]

/-- C8: at a remote whose single page is one null entry, the configured email
`nobody@nowhere.test` matches no record of the finite forward chain, yet
`dataSourceSplitUserRead` does not write zero values: the scan panics on the nil entry and
the read does not return. -/
theorem read_no_match_panics_on_null_entry (fuel : Nat) :
    forwardChain nullService firstRequest [nullPage] = true ∧
    (∀ uu ∈ records [nullPage], uu.Email ≠ some (priorState "nobody@nowhere.test").email) ∧
    dataSourceSplitUserRead (fuel + 1) (priorState "nobody@nowhere.test")
        { API := { Users := nullService } } = Run.panicked := by
  refine ⟨by decide, by decide, ?_⟩
  simp [dataSourceSplitUserRead, ResourceData.Get, priorState, UsersService.FindByEmail,
    UsersService.findLoop, UsersService.List, RequestURLWithQueryParams, nullService,
    nullPage, scanData]

/-- C9: at a remote whose single page holds a record without email and then a null entry,
every record of the finite forward chain has an absent `Email`, yet `FindByEmail` searched for
the empty string does not return the zero-value `User` with a nil error: past the record it
reads `uu.Email` of the nil entry and panics. -/
theorem FindByEmail_absent_email_panics_on_null_entry (fuel : Nat) :
    forwardChain ghostNullService firstRequest [ghostNullPage] = true ∧
    (∀ uu ∈ records [ghostNullPage], uu.Email = none) ∧
    (ghostNullService.FindByEmail "" (fuel + 1)).outcome = Run.panicked := by
  refine ⟨by decide, by decide, ?_⟩
  simp [UsersService.FindByEmail, UsersService.findLoop, UsersService.List,
    RequestURLWithQueryParams, ghostNullService, ghostNullPage, mkUser, scanData]

/-- C10: at a remote that answers with a successfully decoded page whose `Data` holds a null
entry, `FindByEmail` reads `uu.Email` of the nil entry and panics, for every email and
however many iterations it is given; it does not return a `(User, error)` pair. -/
theorem FindByEmail_panics_on_null_entry (email : String) (fuel : Nat) :
    (nullService.List firstRequest).err = none ∧
    (nullService.List firstRequest).result = some nullPage ∧
    (nullService.FindByEmail email (fuel + 1)).outcome = Run.panicked := by
  refine ⟨rfl, rfl, rfl⟩

end Split
